import Mathlib

/-!
Verification of `locale/import-symbols.py`: a shallow embedding of the
symbols-dictionary serializer and of the CLDR emoji-annotation import
pipeline, together with theorems settling the specification claims.

Modelling conventions:
* Python's `OrderedDict` (and `dict`, which is insertion-ordered) is an
  association list `List (String × String)`; assignment `d[k] = v` is
  `odInsert`, which overwrites the value in place when the key is present
  (keeping the key's original position) and appends otherwise.
* An XML `annotation` element is `AnnElem`: its `type` attribute
  (`attrib.get("type")`, absent = `none`), its `cp` attribute and its text.
  A parsed CLDR file is the list of such elements in document order.
* `createCLDRAnnotationsDict` raises `AssertionError` on an empty result;
  this is modelled as `Except String`, with the assertion message.
* The filesystem the script reads is `CLDRFS` (the two directories of
  parsed files, keyed by base file name); the output tree it writes is
  `OutputFS` (created directories, written files). The module-level loops
  become explicit state-passing folds.
* `GLib.utf8_normalize (_, -1, NormalizeMode.ALL_COMPOSE)` is an external
  library call and is kept abstract as a parameter `norm : String → String`.
-/

set_option maxHeartbeats 1000000

/-- Python `d[k] = v` on an insertion-ordered dictionary: overwrite in place
if the key exists (original key object and position kept), else append. -/
def odInsert (d : List (String × String)) (k v : String) : List (String × String) :=
  if d.any (fun e => e.1 == k) then
    d.map (fun e => if e.1 == k then (e.1, v) else e)
  else d ++ [(k, v)]

/-- Python truthiness of `self.symbolsQualifier` (None and "" are falsy). -/
def qualTruthy : Option String → Bool
  | none => false
  | some s => s != ""

/-- `SymbolsDictionary(OrderedDict)` from the script: ordered entries plus
the optional `symbolsQualifier` attribute. -/
structure SymbolsDictionary where
  symbolsQualifier : Option String
  entries : List (String × String)
deriving DecidableEq

/-- The entry-rendering loop of `SymbolsDictionary.__str__`: one line per
entry, `pattern TAB description TAB none [TAB qualifier] CRLF`. -/
def renderEntries (q : Option String) : List (String × String) → String
  | [] => ""
  | e :: rest =>
    (if qualTruthy q then
      e.1 ++ "\t" ++ e.2 ++ "\tnone\t" ++ q.getD "" ++ "\r\n"
     else
      e.1 ++ "\t" ++ e.2 ++ "\tnone\r\n") ++ renderEntries q rest

/-- `SymbolsDictionary.__str__`: the header line followed by the entries. -/
def SymbolsDictionary.render (d : SymbolsDictionary) : String :=
  "symbols:\r\n" ++ renderEntries d.symbolsQualifier d.entries

/-- An XML `annotation` element as the script reads it. -/
structure AnnElem where
  elemType : Option String
  cp : String
  text : String
deriving DecidableEq

/-- Shorthand for a `tts`-typed element. -/
def mkTts (k v : String) : AnnElem := { elemType := some "tts", cp := k, text := v }

/-- Python `text.replace(":", "")`. -/
def stripColons (s : String) : String :=
  String.mk (s.data.filter (fun c => c != ':'))

/-- Processing one parsed CLDR file inside `createCLDRAnnotationsDict`:
each `tts`-typed element's `cp` is assigned its colon-stripped text. -/
def processSource (d : List (String × String)) (src : List AnnElem) : List (String × String) :=
  src.foldl
    (fun d el =>
      if el.elemType == some "tts" then odInsert d el.cp (stripColons el.text) else d)
    d

/-- `createCLDRAnnotationsDict(sources)`: fold the sources in order into one
dictionary; `assert cldrDict` is modelled as the error branch. -/
def createCLDRAnnotationsDict (sources : List (List AnnElem)) : Except String SymbolsDictionary :=
  let cldrDict := sources.foldl processSource []
  if cldrDict.isEmpty then Except.error "cldrDict is empty"
  else Except.ok { symbolsQualifier := none, entries := cldrDict }

/-- Claim C2: merging two sources that both carry a `tts` element for the
same code point keeps the later-listed source's (colon-stripped) text;
swapping the order swaps the winner. -/
theorem extract_later_source_overrides (k dA dB : String) :
    createCLDRAnnotationsDict [[mkTts k dA], [mkTts k dB]]
      = Except.ok { symbolsQualifier := none, entries := [(k, stripColons dB)] }
    ∧ createCLDRAnnotationsDict [[mkTts k dB], [mkTts k dA]]
      = Except.ok { symbolsQualifier := none, entries := [(k, stripColons dA)] } := by
  constructor <;>
    simp [createCLDRAnnotationsDict, processSource, mkTts, odInsert]

theorem processSource_no_tts (src : List AnnElem)
    (h : ∀ a ∈ src, a.elemType ≠ some "tts") (d : List (String × String)) :
    processSource d src = d := by
  induction src generalizing d with
  | nil => rfl
  | cons a rest ih =>
    have ha : a.elemType ≠ some "tts" := h a (by simp)
    have hrest : ∀ b ∈ rest, b.elemType ≠ some "tts" := fun b hb => h b (by simp [hb])
    simp only [processSource, List.foldl_cons]
    rw [if_neg (by simpa using ha)]
    exact ih hrest d

/-- Claim C4: extraction never returns an empty dictionary as a success;
the empty source list and any source list without `tts` elements signal the
empty-result error. -/
theorem extract_empty_signals_error :
    (∀ sources d, createCLDRAnnotationsDict sources = Except.ok d → d.entries ≠ [])
    ∧ createCLDRAnnotationsDict [] = Except.error "cldrDict is empty"
    ∧ (∀ sources, (∀ src ∈ sources, ∀ a ∈ src, a.elemType ≠ some "tts") →
        createCLDRAnnotationsDict sources = Except.error "cldrDict is empty") := by
  refine ⟨?_, rfl, ?_⟩
  · intro sources d h
    unfold createCLDRAnnotationsDict at h
    by_cases he : (sources.foldl processSource []).isEmpty
    · simp [he] at h
    · simp [he] at h
      rw [← h]
      simpa [List.isEmpty_iff] using he
  · intro sources h
    have hfold : sources.foldl processSource [] = [] := by
      induction sources with
      | nil => rfl
      | cons s rest ih =>
        have hs : ∀ a ∈ s, a.elemType ≠ some "tts" := h s (by simp)
        have hrest : ∀ src ∈ rest, ∀ a ∈ src, a.elemType ≠ some "tts" :=
          fun src hsrc => h src (by simp [hsrc])
        simp only [List.foldl_cons, processSource_no_tts s hs]
        exact ih hrest
    simp [createCLDRAnnotationsDict, hfold]

/-- Witness for C4 at concrete inputs: a single source holding only a
non-`tts` element yields the empty-result error. -/
theorem extract_empty_signals_error_witness :
    createCLDRAnnotationsDict [[{ elemType := some "image", cp := "x", text := "pic" }]]
      = Except.error "cldrDict is empty" :=
  extract_empty_signals_error.2.2 _ (by decide)

/-- Claim C5: inserting keys `a, b, c` and then overwriting `a` keeps `a` in
its original position with the new value, and render emits the entries in
the order `a, b, c`. -/
theorem insert_overwrite_keeps_position (a b c v1 v2 v3 v1' : String)
    (hab : a ≠ b) (hac : a ≠ c) (hbc : b ≠ c) :
    odInsert (odInsert (odInsert (odInsert [] a v1) b v2) c v3) a v1'
      = [(a, v1'), (b, v2), (c, v3)]
    ∧ SymbolsDictionary.render
        { symbolsQualifier := none,
          entries := odInsert (odInsert (odInsert (odInsert [] a v1) b v2) c v3) a v1' }
      = "symbols:\r\n" ++
        ((a ++ "\t" ++ v1' ++ "\tnone\r\n") ++
          ((b ++ "\t" ++ v2 ++ "\tnone\r\n") ++
            ((c ++ "\t" ++ v3 ++ "\tnone\r\n") ++ ""))) := by
  have hstep :
      odInsert (odInsert (odInsert (odInsert [] a v1) b v2) c v3) a v1'
        = [(a, v1'), (b, v2), (c, v3)] := by
    simp [odInsert, hab, hac, hbc, Ne.symm hab, Ne.symm hac, Ne.symm hbc]
  refine ⟨hstep, ?_⟩
  rw [hstep]
  rfl

/-- Witness for C5 at concrete keys and values. -/
theorem insert_overwrite_keeps_position_witness :
    odInsert (odInsert (odInsert (odInsert [] "a" "1") "b" "2") "c" "3") "a" "9"
      = [("a", "9"), ("b", "2"), ("c", "3")] :=
  (insert_overwrite_keeps_position "a" "b" "c" "1" "2" "3" "9"
    (by decide) (by decide) (by decide)).1

/-- The fixed banner written at the top of every generated file. -/
def docHeader : String :=
  "# This file was automatically generated by make import-symbols\n# DO NOT MODIFY IT!\n# See locale/README.md to know how to import dictionaries\n\n"

/-- `CLDRExceptionsList`: output language code to ordered source base names,
in the script's literal insertion order. -/
def CLDRExceptionsList : List (String × List String) :=
  [("sr", ["sr", "sr_Latn"]),
   ("sr_BA", ["sr_Latn_BA"]),
   ("yue", ["yue", "yue_Hans"]),
   ("zh_HK", ["zh_Hant_HK"]),
   ("zh_TW", ["zh_Hant"])]

/-- The two CLDR source directories, keyed by base file name (with the
`.xml` suffix); a present file is its parsed element list. -/
structure CLDRFS where
  mainFiles : List (String × List AnnElem)
  derivedFiles : List (String × List AnnElem)
deriving DecidableEq

/-- The output tree the script writes: directories created so far and
files written so far (path and full content). -/
structure OutputFS where
  dirs : List String
  files : List (String × String)
deriving DecidableEq

/-- `os.mkdir(lang)` guarded by `path.exists(lang)`. -/
def ensureDir (out : OutputFS) (lang : String) : OutputFS :=
  if lang ∈ out.dirs then out else { out with dirs := out.dirs ++ [lang] }

/-- Source assembly of the exception loop: for each base name, in order,
append the main-directory file if present, then the derived one. -/
def exceptionSources (fs : CLDRFS) (files : List String) : List (List AnnElem) :=
  files.foldl
    (fun acc f =>
      let acc :=
        match fs.mainFiles.lookup (f ++ ".xml") with
        | some c => acc ++ [c]
        | none => acc
      match fs.derivedFiles.lookup (f ++ ".xml") with
      | some c => acc ++ [c]
      | none => acc)
    []

/-- The initial `processedFiles` list. -/
def initialProcessedFiles : List String :=
  ["root.xml", "en_001.xml", "sr_Cyrl.xml", "sr_Cyrl_BA.xml"]

/-- One iteration of the exception loop: create the language directory if
absent, record every listed base name (plus `.xml`) as processed, then
extract and, when extraction succeeded, write `<lang>/emojis.dic`. -/
def processException (fs : CLDRFS) (st : OutputFS × List String)
    (entry : String × List String) : OutputFS × List String :=
  let out := ensureDir st.1 entry.1
  let processed := st.2 ++ entry.2.map (fun f => f ++ ".xml")
  match createCLDRAnnotationsDict (exceptionSources fs entry.2) with
  | Except.error _ => (out, processed)
  | Except.ok d =>
      ({ out with files := out.files ++ [(entry.1 ++ "/emojis.dic", docHeader ++ d.render)] },
       processed)

/-- The whole exception loop over `CLDRExceptionsList`. -/
def exceptionPhase (fs : CLDRFS) (st : OutputFS × List String) : OutputFS × List String :=
  CLDRExceptionsList.foldl (processException fs) st

/-- Source assembly of the generic scan: the listed main file itself, then
the same-named derived file when present. -/
def genericSources (fs : CLDRFS) (f : String) (content : List AnnElem) : List (List AnnElem) :=
  match fs.derivedFiles.lookup f with
  | some c => [content, c]
  | none => [content]

/-- One iteration of the generic scan over a directory listing entry
`(file name, parsed content)`: skip if already processed; otherwise the
language code is the file name with its last four characters removed
(`CLDRFile[:-4]`), the directory is created if absent, and on successful
extraction the dictionary is written and the file name recorded. -/
def processGeneric (fs : CLDRFS) (st : OutputFS × List String)
    (fc : String × List AnnElem) : OutputFS × List String :=
  if fc.1 ∈ st.2 then st
  else
    let lang := fc.1.take (fc.1.length - 4)
    let out := ensureDir st.1 lang
    match createCLDRAnnotationsDict (genericSources fs fc.1 fc.2) with
    | Except.error _ => (out, st.2)
    | Except.ok d =>
        ({ out with files := out.files ++ [(lang ++ "/emojis.dic", docHeader ++ d.render)] },
         st.2 ++ [fc.1])

/-- The whole generic scan, listing the main annotations directory. -/
def genericPhase (fs : CLDRFS) (st : OutputFS × List String) : OutputFS × List String :=
  fs.mainFiles.foldl (processGeneric fs) st

theorem ensureDir_mem (out : OutputFS) (lang : String) : lang ∈ (ensureDir out lang).dirs := by
  unfold ensureDir
  split
  · assumption
  · simp

theorem ensureDir_files (out : OutputFS) (lang : String) : (ensureDir out lang).files = out.files := by
  unfold ensureDir
  split <;> rfl

theorem processException_eq_error (fs : CLDRFS) (st : OutputFS × List String)
    (lang : String) (files : List String) (e : String)
    (h : createCLDRAnnotationsDict (exceptionSources fs files) = Except.error e) :
    processException fs st (lang, files)
      = (ensureDir st.1 lang, st.2 ++ files.map (fun f => f ++ ".xml")) := by
  unfold processException
  rw [h]

theorem processException_eq_ok (fs : CLDRFS) (st : OutputFS × List String)
    (lang : String) (files : List String) (d : SymbolsDictionary)
    (h : createCLDRAnnotationsDict (exceptionSources fs files) = Except.ok d) :
    processException fs st (lang, files)
      = ({ ensureDir st.1 lang with
            files := (ensureDir st.1 lang).files ++ [(lang ++ "/emojis.dic", docHeader ++ d.render)] },
         st.2 ++ files.map (fun f => f ++ ".xml")) := by
  unfold processException
  rw [h]

theorem processException_processed (fs : CLDRFS) (st : OutputFS × List String)
    (e : String × List String) :
    (processException fs st e).2 = st.2 ++ e.2.map (fun f => f ++ ".xml") := by
  unfold processException
  split <;> rfl

theorem processGeneric_skip (fs : CLDRFS) (st : OutputFS × List String)
    (fc : String × List AnnElem) (h : fc.1 ∈ st.2) : processGeneric fs st fc = st := by
  unfold processGeneric
  rw [if_pos h]

theorem processGeneric_eq_error (fs : CLDRFS) (st : OutputFS × List String)
    (f : String) (c : List AnnElem) (e : String) (hmem : f ∉ st.2)
    (h : createCLDRAnnotationsDict (genericSources fs f c) = Except.error e) :
    processGeneric fs st (f, c) = (ensureDir st.1 (f.take (f.length - 4)), st.2) := by
  unfold processGeneric
  rw [if_neg hmem, h]

theorem processGeneric_eq_ok (fs : CLDRFS) (st : OutputFS × List String)
    (f : String) (c : List AnnElem) (d : SymbolsDictionary) (hmem : f ∉ st.2)
    (h : createCLDRAnnotationsDict (genericSources fs f c) = Except.ok d) :
    processGeneric fs st (f, c)
      = ({ ensureDir st.1 (f.take (f.length - 4)) with
            files := (ensureDir st.1 (f.take (f.length - 4))).files
              ++ [(f.take (f.length - 4) ++ "/emojis.dic", docHeader ++ d.render)] },
         st.2 ++ [f]) := by
  unfold processGeneric
  rw [if_neg hmem, h]

theorem processGeneric_processed_mem (fs : CLDRFS) (st : OutputFS × List String)
    (fc : String × List AnnElem) (x : String) (hx : x ∈ st.2) :
    x ∈ (processGeneric fs st fc).2 := by
  unfold processGeneric
  split
  · exact hx
  · split
    · exact hx
    · exact List.mem_append_left _ hx

theorem foldl_processException_mem_acc (fs : CLDRFS) (l : List (String × List String))
    (st : OutputFS × List String) (x : String) (hx : x ∈ st.2) :
    x ∈ (l.foldl (processException fs) st).2 := by
  induction l generalizing st with
  | nil => exact hx
  | cons e rest ih =>
    refine ih _ ?_
    rw [processException_processed]
    exact List.mem_append_left _ hx

theorem foldl_processException_mem_entry (fs : CLDRFS) (l : List (String × List String))
    (st : OutputFS × List String) (e : String × List String) (he : e ∈ l)
    (f : String) (hf : f ∈ e.2) :
    (f ++ ".xml") ∈ (l.foldl (processException fs) st).2 := by
  induction l generalizing st with
  | nil => cases he
  | cons a rest ih =>
    rcases List.mem_cons.mp he with rfl | he'
    · refine foldl_processException_mem_acc fs rest _ _ ?_
      rw [processException_processed]
      exact List.mem_append_right _ (List.mem_map_of_mem _ hf)
    · exact ih _ he'

theorem foldl_processGeneric_mem (fs : CLDRFS) (l : List (String × List AnnElem))
    (st : OutputFS × List String) (x : String) (hx : x ∈ st.2) :
    x ∈ (l.foldl (processGeneric fs) st).2 := by
  induction l generalizing st with
  | nil => exact hx
  | cons fc rest ih => exact ih _ (processGeneric_processed_mem fs st fc x hx)

/-- A run against an empty CLDR tree (no source files at all). -/
def fsEmpty : CLDRFS := { mainFiles := [], derivedFiles := [] }

/-- Claim C7, counterexample: against an empty CLDR tree every exception
language has zero extracted entries, yet the exception loop still creates
all five language directories (while writing no file): the directory
creation is not conditional on a non-empty extraction. -/
theorem lang_dir_created_despite_empty_extraction :
    (exceptionPhase fsEmpty ({ dirs := [], files := [] }, initialProcessedFiles)).1.dirs
      = ["sr", "sr_BA", "yue", "zh_HK", "zh_TW"]
    ∧ (exceptionPhase fsEmpty ({ dirs := [], files := [] }, initialProcessedFiles)).1.files = []
    ∧ (exceptionPhase fsEmpty ({ dirs := [], files := [] }, initialProcessedFiles)).1.dirs ≠ [] := by
  refine ⟨by rfl, by rfl, by decide⟩

/-- Claim C7, amended: in both phases the language directory is created
(if absent) unconditionally, before extraction; only the writing of
`emojis.dic` is conditional on the extraction having produced entries. -/
theorem lang_dir_unconditional_file_conditional (fs : CLDRFS)
    (st : OutputFS × List String) (lang : String) (files : List String)
    (f : String) (c : List AnnElem) :
    lang ∈ (processException fs st (lang, files)).1.dirs
    ∧ (∀ e, createCLDRAnnotationsDict (exceptionSources fs files) = Except.error e →
        (processException fs st (lang, files)).1.files = st.1.files)
    ∧ (∀ d, createCLDRAnnotationsDict (exceptionSources fs files) = Except.ok d →
        (processException fs st (lang, files)).1.files
          = st.1.files ++ [(lang ++ "/emojis.dic", docHeader ++ d.render)])
    ∧ (f ∉ st.2 → f.take (f.length - 4) ∈ (processGeneric fs st (f, c)).1.dirs)
    ∧ (f ∉ st.2 → ∀ e, createCLDRAnnotationsDict (genericSources fs f c) = Except.error e →
        (processGeneric fs st (f, c)).1.files = st.1.files) := by
  refine ⟨?_, ?_, ?_, ?_, ?_⟩
  · rcases hres : createCLDRAnnotationsDict (exceptionSources fs files) with e | d
    · rw [processException_eq_error fs st lang files e hres]
      exact ensureDir_mem st.1 lang
    · rw [processException_eq_ok fs st lang files d hres]
      exact ensureDir_mem st.1 lang
  · intro e hres
    rw [processException_eq_error fs st lang files e hres]
    exact ensureDir_files st.1 lang
  · intro d hres
    rw [processException_eq_ok fs st lang files d hres]
    simp [ensureDir_files]
  · intro hmem
    rcases hres : createCLDRAnnotationsDict (genericSources fs f c) with e | d
    · rw [processGeneric_eq_error fs st f c e hmem hres]
      exact ensureDir_mem st.1 _
    · rw [processGeneric_eq_ok fs st f c d hmem hres]
      exact ensureDir_mem st.1 _
  · intro hmem e hres
    rw [processGeneric_eq_error fs st f c e hmem hres]
    exact ensureDir_files st.1 _

/-- Witness for the amended C7 at a concrete input: the `sr` entry against
the empty tree creates the `sr` directory and writes nothing. -/
theorem lang_dir_unconditional_file_conditional_witness :
    "sr" ∈ (processException fsEmpty ({ dirs := [], files := [] }, initialProcessedFiles)
              ("sr", ["sr", "sr_Latn"])).1.dirs
    ∧ (processException fsEmpty ({ dirs := [], files := [] }, initialProcessedFiles)
        ("sr", ["sr", "sr_Latn"])).1.files = [] :=
  ⟨(lang_dir_unconditional_file_conditional fsEmpty _ "sr" ["sr", "sr_Latn"] "" []).1,
   (lang_dir_unconditional_file_conditional fsEmpty _ "sr" ["sr", "sr_Latn"] "" []).2.1
     "cldrDict is empty" (by rfl)⟩

/-- A CLDR tree where the two source files of the `sr` exception entry
carry a `tts` element for the same code point with different texts. -/
def fsC3 : CLDRFS :=
  { mainFiles := [("sr.xml", [mkTts "k" "first"]), ("sr_Latn.xml", [mkTts "k" "second"])],
    derivedFiles := [] }

/-- Claim C3, counterexample: for the exception entry `("sr", [sr, sr_Latn])`
with a key shared by both listed files, the merged dictionary holds the
SECOND-listed file's value, not the first-listed one's. -/
theorem exception_merge_first_precedence_false :
    ("sr", ["sr", "sr_Latn"]) ∈ CLDRExceptionsList
    ∧ createCLDRAnnotationsDict (exceptionSources fsC3 ["sr", "sr_Latn"])
        = Except.ok { symbolsQualifier := none, entries := [("k", "second")] }
    ∧ ("second" : String) ≠ "first" := by
  refine ⟨by decide, by rfl, by decide⟩

/-- Claim C3, amended: on key collision among an exception entry's listed
source files, the LAST-listed file's entry wins, because later inserts
overwrite earlier ones sharing a key. -/
theorem exception_merge_later_file_wins (fs : CLDRFS) (f1 f2 k v1 v2 : String)
    (h1 : fs.mainFiles.lookup (f1 ++ ".xml") = some [mkTts k v1])
    (h2 : fs.mainFiles.lookup (f2 ++ ".xml") = some [mkTts k v2])
    (hd1 : fs.derivedFiles.lookup (f1 ++ ".xml") = none)
    (hd2 : fs.derivedFiles.lookup (f2 ++ ".xml") = none) :
    createCLDRAnnotationsDict (exceptionSources fs [f1, f2])
      = Except.ok { symbolsQualifier := none, entries := [(k, stripColons v2)] } := by
  have hsrc : exceptionSources fs [f1, f2] = [[mkTts k v1], [mkTts k v2]] := by
    simp [exceptionSources, h1, h2, hd1, hd2]
  rw [hsrc]
  simp [createCLDRAnnotationsDict, processSource, mkTts, odInsert]

/-- Witness for the amended C3 at the concrete `fsC3` tree. -/
theorem exception_merge_later_file_wins_witness :
    createCLDRAnnotationsDict (exceptionSources fsC3 ["sr", "sr_Latn"])
      = Except.ok { symbolsQualifier := none, entries := [("k", stripColons "second")] } :=
  exception_merge_later_file_wins fsC3 "sr" "sr_Latn" "k" "first" "second"
    (by decide) (by decide) (by decide) (by decide)

/-- Claim C8: after the exception phase every pre-seeded name and every
base name consumed by an exception entry is in the processed-files list;
the generic scan leaves the state untouched for any file already in the
list; and both phases only ever grow the list. -/
theorem processedFiles_invariant (fs : CLDRFS) (st0 : OutputFS) :
    (∀ x ∈ initialProcessedFiles, x ∈ (exceptionPhase fs (st0, initialProcessedFiles)).2)
    ∧ (∀ e ∈ CLDRExceptionsList, ∀ f ∈ e.2,
        (f ++ ".xml") ∈ (exceptionPhase fs (st0, initialProcessedFiles)).2)
    ∧ (∀ (st : OutputFS × List String) (fc : String × List AnnElem),
        fc.1 ∈ st.2 → processGeneric fs st fc = st)
    ∧ (∀ (st : OutputFS × List String) (fc : String × List AnnElem) (x : String),
        x ∈ st.2 → x ∈ (processGeneric fs st fc).2)
    ∧ (∀ (st : OutputFS × List String) (e : String × List String) (x : String),
        x ∈ st.2 → x ∈ (processException fs st e).2)
    ∧ (∀ (l : List (String × List AnnElem)) (st : OutputFS × List String) (x : String),
        x ∈ st.2 → x ∈ (l.foldl (processGeneric fs) st).2) := by
  refine ⟨?_, ?_, ?_, ?_, ?_, ?_⟩
  · intro x hx
    exact foldl_processException_mem_acc fs CLDRExceptionsList _ x hx
  · intro e he f hf
    exact foldl_processException_mem_entry fs CLDRExceptionsList _ e he f hf
  · intro st fc h
    exact processGeneric_skip fs st fc h
  · intro st fc x hx
    exact processGeneric_processed_mem fs st fc x hx
  · intro st e x hx
    rw [processException_processed]
    exact List.mem_append_left _ hx
  · intro l st x hx
    exact foldl_processGeneric_mem fs l st x hx

/-- Witness for C8 at a concrete input: against the empty tree, a seed file
and a consumed exception file are in the processed list after the
exception phase, and the generic scan skips a listed processed file. -/
theorem processedFiles_invariant_witness :
    "root.xml" ∈ (exceptionPhase fsEmpty ({ dirs := [], files := [] }, initialProcessedFiles)).2
    ∧ "sr_Latn.xml"
        ∈ (exceptionPhase fsEmpty ({ dirs := [], files := [] }, initialProcessedFiles)).2
    ∧ processGeneric fsEmpty ({ dirs := [], files := [] }, ["root.xml"]) ("root.xml", [])
        = ({ dirs := [], files := [] }, ["root.xml"]) :=
  ⟨(processedFiles_invariant fsEmpty { dirs := [], files := [] }).1 "root.xml" (by decide),
   (processedFiles_invariant fsEmpty { dirs := [], files := [] }).2.1
     ("sr", ["sr", "sr_Latn"]) (by decide) "sr_Latn" (by decide),
   (processedFiles_invariant fsEmpty { dirs := [], files := [] }).2.2.1
     ({ dirs := [], files := [] }, ["root.xml"]) ("root.xml", []) (by decide)⟩

/-- Claim C9: for a not-yet-processed listing entry, the generic scan's
language code — the created directory and the written path — is the file
name with its last four characters removed, with no condition that the
name end in `.xml`. -/
theorem generic_scan_lang_truncates_four (fs : CLDRFS) (st : OutputFS × List String)
    (f : String) (c : List AnnElem) (h : f ∉ st.2) :
    f.take (f.length - 4) ∈ (processGeneric fs st (f, c)).1.dirs
    ∧ (∀ d, createCLDRAnnotationsDict (genericSources fs f c) = Except.ok d →
        (processGeneric fs st (f, c)).1.files
          = st.1.files ++ [(f.take (f.length - 4) ++ "/emojis.dic", docHeader ++ d.render)]) := by
  constructor
  · rcases hres : createCLDRAnnotationsDict (genericSources fs f c) with e | d
    · rw [processGeneric_eq_error fs st f c e h hres]
      exact ensureDir_mem st.1 _
    · rw [processGeneric_eq_ok fs st f c d h hres]
      exact ensureDir_mem st.1 _
  · intro d hres
    rw [processGeneric_eq_ok fs st f c d h hres]
    simp [ensureDir_files]

/-- A main-directory listing holding one file whose name does not end in
`.xml`. -/
def fs9 : CLDRFS := { mainFiles := [("abc.html", [mkTts "k" "v"])], derivedFiles := [] }

/-- Witness for C9: the file name `abc.html` yields the directory `abc.`
(last four characters removed — not a stripped `.xml` extension). -/
theorem generic_scan_lang_truncates_four_witness :
    "abc.html".take ("abc.html".length - 4) = "abc."
    ∧ "abc.html".take ("abc.html".length - 4)
        ∈ (processGeneric fs9 ({ dirs := [], files := [] }, [])
            ("abc.html", [mkTts "k" "v"])).1.dirs :=
  ⟨by decide,
   (generic_scan_lang_truncates_four fs9 ({ dirs := [], files := [] }, [])
     "abc.html" [mkTts "k" "v"] (by simp)).1⟩

/-- Split a character list on one separator character; the result always
has one more group than there are separators. -/
def splitCh (c : Char) : List Char → List (List Char)
  | [] => [[]]
  | x :: xs =>
    match splitCh c xs with
    | [] => [[]]
    | g :: gs => if x = c then [] :: g :: gs else (x :: g) :: gs

theorem splitCh_ne_nil (c : Char) (l : List Char) : splitCh c l ≠ [] := by
  induction l with
  | nil => simp [splitCh]
  | cons x xs ih =>
    simp only [splitCh]
    rcases h : splitCh c xs with _ | ⟨g, gs⟩
    · simp
    · by_cases hxc : x = c <;> simp [hxc]

theorem splitCh_not_mem (c : Char) (l : List Char) (h : c ∉ l) : splitCh c l = [l] := by
  induction l with
  | nil => rfl
  | cons x xs ih =>
    have hx : x ≠ c := fun hh => h (by simp [hh])
    have hxs : c ∉ xs := fun hc => h (by simp [hc])
    simp only [splitCh, ih hxs]
    rw [if_neg hx]

theorem splitCh_append (c : Char) (a b : List Char) (h : c ∉ a) :
    splitCh c (a ++ c :: b) = a :: splitCh c b := by
  induction a with
  | nil =>
    simp only [List.nil_append, splitCh]
    rcases hs : splitCh c b with _ | ⟨g, gs⟩
    · exact absurd hs (splitCh_ne_nil c b)
    · simp
  | cons x a' ih =>
    have hx : x ≠ c := fun hh => h (by simp [hh])
    have h' : c ∉ a' := fun hc => h (by simp [hc])
    simp only [List.cons_append, splitCh, List.append_eq, ih h']
    rw [if_neg hx]

/-- Split a character list on the two-character CRLF separator. -/
def splitCRLF : List Char → List (List Char)
  | [] => [[]]
  | '\r' :: '\n' :: xs => [] :: splitCRLF xs
  | x :: xs =>
    match splitCRLF xs with
    | [] => [[]]
    | g :: gs => (x :: g) :: gs

theorem splitCRLF_cons_ne (x : Char) (xs : List Char) (hx : x ≠ '\r') :
    splitCRLF (x :: xs)
      = match splitCRLF xs with
        | [] => [[]]
        | g :: gs => (x :: g) :: gs := by
  rw [splitCRLF.eq_def]
  split
  · simp_all
  · rename_i heq
    injection heq with h1 h2
    exact absurd h1 hx
  · rename_i sc y ys hguard heq
    injection heq with h1 h2
    subst h1
    subst h2
    rfl

theorem splitCRLF_append (a b : List Char) (h : '\r' ∉ a) :
    splitCRLF (a ++ '\r' :: '\n' :: b) = a :: splitCRLF b := by
  induction a with
  | nil => rfl
  | cons x a' ih =>
    have hx : x ≠ '\r' := fun hh => h (by simp [hh])
    have h' : '\r' ∉ a' := fun hc => h (by simp [hc])
    rw [List.cons_append, splitCRLF_cons_ne x _ hx, ih h']

theorem splitCRLF_flatten {α : Type} (es : List α) (f : α → List Char)
    (h : ∀ e ∈ es, '\r' ∉ f e) :
    splitCRLF ((es.map (fun e => f e ++ ['\r', '\n'])).flatten) = es.map f ++ [[]] := by
  induction es with
  | nil => rfl
  | cons b bs ih =>
    simp only [List.map_cons, List.flatten_cons, List.append_assoc, List.cons_append,
      List.nil_append]
    rw [splitCRLF_append (f b) _ (h b (by simp)), ih (fun b' hb' => h b' (by simp [hb']))]

/-- An entry string is clean when it holds no tab and no line-break
character (the characters render emits verbatim without escaping). -/
def cleanStr (s : String) : Prop := ∀ ch ∈ s.data, ch ≠ '\t' ∧ ch ≠ '\r' ∧ ch ≠ '\n'

instance (s : String) : Decidable (cleanStr s) :=
  inferInstanceAs (Decidable (∀ ch ∈ s.data, ch ≠ '\t' ∧ ch ≠ '\r' ∧ ch ≠ '\n'))

/-- The character content of one rendered entry line, without its CRLF
terminator. -/
def entryBody (q : Option String) (e : String × String) : List Char :=
  if qualTruthy q then
    e.1.data ++ ('\t' :: (e.2.data ++ ('\t' :: ("none".data ++ ('\t' :: (q.getD "").data)))))
  else
    e.1.data ++ ('\t' :: (e.2.data ++ ('\t' :: "none".data)))

theorem renderEntries_data (q : Option String) (es : List (String × String)) :
    (renderEntries q es).data
      = (es.map (fun e => entryBody q e ++ ['\r', '\n'])).flatten := by
  induction es with
  | nil => rfl
  | cons e rest ih =>
    simp only [renderEntries, List.map_cons, List.flatten_cons, String.data_append, ih]
    by_cases hq : qualTruthy q
    · rw [if_pos hq]
      simp [entryBody, hq, String.data_append,
        (show ("\t" : String).data = ['\t'] from rfl),
        (show ("\tnone\t" : String).data = '\t' :: "none".data ++ ['\t'] from rfl),
        (show ("\r\n" : String).data = ['\r', '\n'] from rfl)]
    · rw [if_neg hq]
      simp [entryBody, hq, String.data_append,
        (show ("\t" : String).data = ['\t'] from rfl),
        (show ("\tnone\r\n" : String).data = '\t' :: "none".data ++ ['\r', '\n'] from rfl)]

theorem mem_entryBody (q : Option String) (e : String × String) (c : Char)
    (hc : c ∈ entryBody q e) :
    c = '\t' ∨ c ∈ e.1.data ∨ c ∈ e.2.data ∨ c = 'n' ∨ c = 'o' ∨ c = 'e'
      ∨ c ∈ (q.getD "").data := by
  unfold entryBody at hc
  by_cases hqt : qualTruthy q
  · rw [if_pos hqt] at hc
    simp at hc
    tauto
  · rw [if_neg hqt] at hc
    simp at hc
    tauto

theorem splitCh_entryBody_plain (q : Option String) (e : String × String)
    (hqt : qualTruthy q = false)
    (h1 : '\t' ∉ e.1.data) (h2 : '\t' ∉ e.2.data) :
    splitCh '\t' (entryBody q e) = [e.1.data, e.2.data, "none".data] := by
  unfold entryBody
  rw [if_neg (by simp [hqt])]
  rw [splitCh_append '\t' e.1.data _ h1, splitCh_append '\t' e.2.data _ h2,
    splitCh_not_mem '\t' "none".data (by decide)]

theorem splitCh_entryBody_qual (q : String) (e : String × String) (hne : q ≠ "")
    (h1 : '\t' ∉ e.1.data) (h2 : '\t' ∉ e.2.data) (hq : '\t' ∉ q.data) :
    splitCh '\t' (entryBody (some q) e) = [e.1.data, e.2.data, "none".data, q.data] := by
  unfold entryBody
  rw [if_pos (by simp [qualTruthy, hne])]
  simp only [Option.getD_some]
  rw [splitCh_append '\t' e.1.data _ h1, splitCh_append '\t' e.2.data _ h2,
    splitCh_append '\t' "none".data _ (by decide), splitCh_not_mem '\t' q.data hq]

/-- Claim C1 (amended): provided every pattern and description holds no tab
and no CR/LF character, the qualifier (when set) likewise, and a set
qualifier is non-empty, render produces the `symbols:` header followed by
one CRLF-terminated line per entry in insertion order; without a (truthy)
qualifier each entry line tab-splits into exactly the three fields
`pattern`, `description`, `none`; with qualifier `Q ≠ ""` into exactly the
four fields `pattern`, `description`, `none`, `Q`; an empty dictionary
renders to the header line alone. -/
theorem render_format_of_clean_entries (d : SymbolsDictionary)
    (hclean : ∀ e ∈ d.entries, cleanStr e.1 ∧ cleanStr e.2)
    (hq : cleanStr (d.symbolsQualifier.getD "")) :
    splitCRLF d.render.data
      = "symbols:".data :: d.entries.map (entryBody d.symbolsQualifier) ++ [[]]
    ∧ (qualTruthy d.symbolsQualifier = false →
        ∀ e ∈ d.entries, splitCh '\t' (entryBody d.symbolsQualifier e)
          = [e.1.data, e.2.data, "none".data])
    ∧ (∀ q, d.symbolsQualifier = some q → q ≠ "" →
        ∀ e ∈ d.entries, splitCh '\t' (entryBody d.symbolsQualifier e)
          = [e.1.data, e.2.data, "none".data, q.data])
    ∧ (d.entries = [] → d.render = "symbols:\r\n") := by
  refine ⟨?_, ?_, ?_, ?_⟩
  · have hbodies : ∀ b ∈ d.entries.map (entryBody d.symbolsQualifier), '\r' ∉ b := by
      intro b hb
      rcases List.mem_map.mp hb with ⟨e, he, rfl⟩
      intro hcr
      rcases mem_entryBody _ _ _ hcr with hh | hh | hh | hh | hh | hh | hh
      · exact absurd hh (by decide)
      · exact ((hclean e he).1 _ hh).2.1 rfl
      · exact ((hclean e he).2 _ hh).2.1 rfl
      · exact absurd hh (by decide)
      · exact absurd hh (by decide)
      · exact absurd hh (by decide)
      · exact (hq _ hh).2.1 rfl
    have hdata : d.render.data
        = "symbols:".data ++ '\r' :: '\n'
            :: ((d.entries.map (fun e => entryBody d.symbolsQualifier e ++ ['\r', '\n'])).flatten) := by
      simp [SymbolsDictionary.render, String.data_append, renderEntries_data,
        (show ("symbols:\r\n" : String).data = "symbols:".data ++ ['\r', '\n'] from rfl)]
    have hbodies' : ∀ e ∈ d.entries, '\r' ∉ entryBody d.symbolsQualifier e :=
      fun e he => hbodies _ (List.mem_map_of_mem _ he)
    rw [hdata, splitCRLF_append _ _ (by decide),
      splitCRLF_flatten d.entries (entryBody d.symbolsQualifier) hbodies']
    simp
  · intro hqt e he
    exact splitCh_entryBody_plain d.symbolsQualifier e hqt
      (fun hm => ((hclean e he).1 _ hm).1 rfl)
      (fun hm => ((hclean e he).2 _ hm).1 rfl)
  · intro q hqe hne e he
    have hqd : '\t' ∉ q.data := fun hm =>
      (hq '\t' (by rw [hqe]; simpa using hm)).1 rfl
    rw [hqe]
    exact splitCh_entryBody_qual q e hne
      (fun hm => ((hclean e he).1 _ hm).1 rfl)
      (fun hm => ((hclean e he).2 _ hm).1 rfl) hqd
  · intro h
    rw [show d.render = "symbols:\r\n" ++ renderEntries d.symbolsQualifier d.entries from rfl, h]
    rfl

/-- Witness for the amended C1 at concrete inputs: the empty dictionary
renders to the bare header, and a clean entry under qualifier `literal`
tab-splits into its four fields. -/
theorem render_format_of_clean_entries_witness :
    ({ symbolsQualifier := none, entries := [] } : SymbolsDictionary).render = "symbols:\r\n"
    ∧ splitCh '\t' (entryBody (some "literal") ("p1", "d1"))
        = ["p1".data, "d1".data, "none".data, "literal".data] :=
  ⟨(render_format_of_clean_entries { symbolsQualifier := none, entries := [] }
      (by simp) (by decide)).2.2.2 rfl,
   (render_format_of_clean_entries { symbolsQualifier := some "literal", entries := [("p1", "d1")] }
      (by decide) (by decide)).2.2.1 "literal" rfl (by decide) ("p1", "d1") (by simp)⟩

/-- Claim C1, counterexample: as stated (with no precondition on the entry
strings) the field-count properties fail — a tab inside a description gives
a 3-field claim 4 fields; a qualifier set to `""` gives the 4-field claim 3
fields (Python truthiness takes the 3-column branch); a CR/LF inside a
description breaks one-line-per-entry; a tab inside a set qualifier gives 5
fields. -/
theorem render_field_count_counterexample :
    splitCRLF (⟨none, [("x", "u\tv")]⟩ : SymbolsDictionary).render.data
      = ["symbols:".data, "x\tu\tv\tnone".data, []]
    ∧ (splitCh '\t' "x\tu\tv\tnone".data).length = 4
    ∧ splitCRLF (⟨some "", [("y", "w")]⟩ : SymbolsDictionary).render.data
      = ["symbols:".data, "y\tw\tnone".data, []]
    ∧ (splitCh '\t' "y\tw\tnone".data).length = 3
    ∧ (splitCRLF (⟨none, [("z", "u\r\nv")]⟩ : SymbolsDictionary).render.data).length = 4
    ∧ splitCRLF (⟨some "a\tb", [("t", "u")]⟩ : SymbolsDictionary).render.data
      = ["symbols:".data, "t\tu\tnone\ta\tb".data, []]
    ∧ (splitCh '\t' "t\tu\tnone\ta\tb".data).length = 5 := by
  refine ⟨by decide, by decide, by decide, by decide, by decide, by decide, by decide⟩

/-- Claim C10: render escapes nothing — pattern and description are emitted
verbatim between the fixed separators — so a description holding a tab
yields an entry line with four tab-separated fields instead of three, and a
description holding a CRLF makes one entry span two lines. -/
theorem render_no_escaping :
    (∀ p desc : String,
      ((⟨none, [(p, desc)]⟩ : SymbolsDictionary).render).data
        = "symbols:".data
            ++ ('\r' :: '\n' :: (p.data ++ ('\t' :: (desc.data
                  ++ ('\t' :: ("none".data ++ ['\r', '\n'])))))))
    ∧ splitCRLF (⟨none, [("p", "a\tb")]⟩ : SymbolsDictionary).render.data
      = ["symbols:".data, "p\ta\tb\tnone".data, []]
    ∧ (splitCh '\t' "p\ta\tb\tnone".data).length = 4
    ∧ (splitCRLF (⟨none, [("p", "c\r\nd")]⟩ : SymbolsDictionary).render.data).length = 4 := by
  refine ⟨?_, by decide, by decide, by decide⟩
  intro p desc
  simp [SymbolsDictionary.render, renderEntries_data, entryBody, qualTruthy,
    String.data_append,
    (show ("symbols:\r\n" : String).data = "symbols:".data ++ ['\r', '\n'] from rfl)]

/-- Value of one hexadecimal digit (as `int(_, 16)` reads it). -/
def hexVal (c : Char) : Nat :=
  if '0' ≤ c ∧ c ≤ '9' then c.toNat - 48
  else if 'a' ≤ c ∧ c ≤ 'f' then c.toNat - 87
  else if 'A' ≤ c ∧ c ≤ 'F' then c.toNat - 55
  else 0

/-- Python `int("0x" + s, 16)` on the well-formed hex fields of
`UnicodeData.txt`. -/
def hexToNat (s : String) : Nat :=
  s.data.foldl (fun a c => 16 * a + hexVal c) 0

/-- Python `chr(n)` as the one-character string it denotes. -/
def natToCharStr (n : Nat) : String :=
  String.mk [Char.ofNat n]

/-- Does the first list start with the second one? -/
def listStarts : List Char → List Char → Bool
  | _, [] => true
  | [], _ => false
  | a :: as, b :: bs => a == b && listStarts as bs

/-- Python `s.startswith(t)`. -/
def strStartsWith (s t : String) : Bool :=
  listStarts s.data t.data

/-- One iteration of the `UnicodeData.txt` loop: when field 5 starts with
the `<font>` tag, decode the font-variant character from field 0 and the
plain (pronounced) character after the tag (`uCharacter[5][7:]`), and
insert the pair only when the normalized font variant differs from the
plain character. `norm` stands for the external
`GLib.utf8_normalize(_, -1, NormalizeMode.ALL_COMPOSE)`. -/
def fontVariantStep (norm : String → String) (d : SymbolsDictionary)
    (row : List String) : SymbolsDictionary :=
  if strStartsWith (row.getD 5 "") "<font>" then
    if natToCharStr (hexToNat ((row.getD 5 "").drop 7))
        ≠ norm (natToCharStr (hexToNat (row.getD 0 ""))) then
      { d with
        entries := odInsert d.entries (natToCharStr (hexToNat (row.getD 0 "")))
          (natToCharStr (hexToNat ((row.getD 5 "").drop 7))) }
    else d
  else d

/-- The whole `UnicodeData.txt` loop: fold the parsed CSV rows into the
dictionary created as `SymbolsDictionary("literal")`. -/
def buildFontVariantsDict (norm : String → String) (rows : List (List String)) :
    SymbolsDictionary :=
  rows.foldl (fontVariantStep norm) { symbolsQualifier := some "literal", entries := [] }

theorem fontVariantStep_qualifier (norm : String → String) (d : SymbolsDictionary)
    (row : List String) :
    (fontVariantStep norm d row).symbolsQualifier = d.symbolsQualifier := by
  unfold fontVariantStep
  split
  · split <;> rfl
  · rfl

theorem fontVariantStep_inserts (norm : String → String) (d : SymbolsDictionary)
    (row : List String) (h : strStartsWith (row.getD 5 "") "<font>" = true)
    (hne : natToCharStr (hexToNat ((row.getD 5 "").drop 7))
        ≠ norm (natToCharStr (hexToNat (row.getD 0 "")))) :
    fontVariantStep norm d row
      = { d with
          entries := odInsert d.entries (natToCharStr (hexToNat (row.getD 0 "")))
            (natToCharStr (hexToNat ((row.getD 5 "").drop 7))) } := by
  unfold fontVariantStep
  rw [if_pos h, if_pos hne]

theorem fontVariantStep_skips (norm : String → String) (d : SymbolsDictionary)
    (row : List String) (h : strStartsWith (row.getD 5 "") "<font>" = true)
    (heq : natToCharStr (hexToNat ((row.getD 5 "").drop 7))
        = norm (natToCharStr (hexToNat (row.getD 0 "")))) :
    fontVariantStep norm d row = d := by
  unfold fontVariantStep
  rw [if_pos h, if_neg (not_not_intro heq)]

theorem buildFontVariantsDict_qualifier (norm : String → String) (rows : List (List String)) :
    (buildFontVariantsDict norm rows).symbolsQualifier = some "literal" := by
  unfold buildFontVariantsDict
  have haux : ∀ (rs : List (List String)) (d : SymbolsDictionary),
      (rs.foldl (fontVariantStep norm) d).symbolsQualifier = d.symbolsQualifier := by
    intro rs
    induction rs with
    | nil => intro d; rfl
    | cons r rest ih =>
      intro d
      rw [List.foldl_cons, ih, fontVariantStep_qualifier]
  rw [haux]

/-- Claim C6: for a record whose sixth field starts with the `<font>` tag,
the pair (character of field 0) -> (character after the tag) is inserted if
and only if the normalization of the font variant differs from the plain
character — otherwise the record leaves the dictionary unchanged — and the
font-variants dictionary carries the qualifier `literal`. -/
theorem fontVariant_insert_iff_norm_differs (norm : String → String)
    (d : SymbolsDictionary) (row : List String)
    (h : strStartsWith (row.getD 5 "") "<font>" = true) :
    (natToCharStr (hexToNat ((row.getD 5 "").drop 7))
        ≠ norm (natToCharStr (hexToNat (row.getD 0 ""))) →
      fontVariantStep norm d row
        = { d with
            entries := odInsert d.entries (natToCharStr (hexToNat (row.getD 0 "")))
              (natToCharStr (hexToNat ((row.getD 5 "").drop 7))) })
    ∧ (natToCharStr (hexToNat ((row.getD 5 "").drop 7))
        = norm (natToCharStr (hexToNat (row.getD 0 ""))) →
      fontVariantStep norm d row = d)
    ∧ (∀ rows, (buildFontVariantsDict norm rows).symbolsQualifier = some "literal") :=
  ⟨fontVariantStep_inserts norm d row h,
   fontVariantStep_skips norm d row h,
   buildFontVariantsDict_qualifier norm⟩

/-- The `UnicodeData.txt` record for MATHEMATICAL BOLD CAPITAL A, whose
decomposition field carries the `<font>` tag pointing at plain `A`. -/
def uRow1 : List String :=
  ["1D400", "MATHEMATICAL BOLD CAPITAL A", "Lu", "0", "L", "<font> 0041"]

/-- Witness for C6 at the concrete record `uRow1`: under a normalizer that
already yields the plain character the pair is skipped; under one that does
not, the pair is inserted into the `literal`-qualified dictionary. -/
theorem fontVariant_insert_iff_norm_differs_witness :
    fontVariantStep (fun _ => natToCharStr (hexToNat "0041"))
        { symbolsQualifier := some "literal", entries := [] } uRow1
      = { symbolsQualifier := some "literal", entries := [] }
    ∧ fontVariantStep (fun _ => "")
        { symbolsQualifier := some "literal", entries := [] } uRow1
      = { symbolsQualifier := some "literal",
          entries := [(natToCharStr (hexToNat "1D400"), natToCharStr (hexToNat "0041"))] } := by
  constructor
  · exact (fontVariant_insert_iff_norm_differs (fun _ => natToCharStr (hexToNat "0041"))
      { symbolsQualifier := some "literal", entries := [] } uRow1 (by decide)).2.1 (by decide)
  · exact ((fontVariant_insert_iff_norm_differs (fun _ => "")
      { symbolsQualifier := some "literal", entries := [] } uRow1 (by decide)).1
        (by decide)).trans (by decide)
